import Mathlib

/-!
Verification of the sculptr.ai procedural-geometry pipeline.

Shallow embedding of the repository's Python sources:
* `src/ai/generator.py` — primitive mesh generators and the OBJ writer;
* `src/renderer/renderer.py` — vector utilities, the OBJ parser, viewer
  state (mesh, bounds, vertex normals) and the camera/framing model.

Modelling conventions:
* Python floats are modelled as exact rationals (`ℚ`); transcendental
  library functions (`math.cos`, `math.sin`, `math.sqrt`, `math.pi`) are
  passed in as abstract parameters, since no claim depends on their
  numeric values beyond algebraic facts stated as hypotheses.
* An OBJ text file is modelled at token granularity: a file is a list of
  lines, each line the list of its whitespace-separated tokens (Python
  `line.strip().split()`), each token a `List Char`.  A blank line is
  `[]`; a `#`-comment line has a first token starting with `'#'`, which
  is never equal to the tokens `"v"` or `"f"`, so the token-level model
  has the same observable behaviour as the line-level code.
* The Python builtins `int(s)` / `float(s)` are embedded for the
  sign-plus-fixed-point-decimal token forms (the only forms the writer
  emits and the claims exercise); on every other token they fail, as a
  malformed literal fails in Python.
* Python list indexing `l[i]` (which wraps negative indices and raises
  `IndexError` out of range) is embedded as `pyGet` / `pySet` returning
  `Option`; a raised exception is propagated as `none` / a `true`
  "raised" flag.
-/

namespace Sculptr

/-- 3-component vector, the Python 3-tuple of floats. -/
abbrev Q3 := ℚ × ℚ × ℚ

/-- `_add` from renderer.py. -/
def add (a b : Q3) : Q3 := (a.1 + b.1, a.2.1 + b.2.1, a.2.2 + b.2.2)

/-- `_sub` from renderer.py. -/
def sub (a b : Q3) : Q3 := (a.1 - b.1, a.2.1 - b.2.1, a.2.2 - b.2.2)

/-- `_mul` from renderer.py (scale by a scalar). -/
def mul (v : Q3) (s : ℚ) : Q3 := (v.1 * s, v.2.1 * s, v.2.2 * s)

/-- `_cross` from renderer.py. -/
def cross (a b : Q3) : Q3 :=
  (a.2.1 * b.2.2 - a.2.2 * b.2.1,
   a.2.2 * b.1 - a.1 * b.2.2,
   a.1 * b.2.1 - a.2.1 * b.1)

/-- Squared Euclidean norm `x*x + y*y + z*z` (the argument of `math.sqrt`
in `_normalize`). -/
def normSq (v : Q3) : ℚ := v.1 * v.1 + v.2.1 * v.2.1 + v.2.2 * v.2.2

/-- Python `a or b` on floats: `a` is falsy exactly when it equals `0.0`. -/
def pyOr (a b : ℚ) : ℚ := if a = 0 then b else a

/-- The divisor `l = math.sqrt(x*x+y*y+z*z) or 1.0` computed by
`_normalize`; `sqrtq` is the abstract embedding of `math.sqrt`. -/
def normDivisor (sqrtq : ℚ → ℚ) (v : Q3) : ℚ := pyOr (sqrtq (normSq v)) 1

/-- `_normalize` from renderer.py: each component divided by the guarded
divisor `l`. -/
def normalize (sqrtq : ℚ → ℚ) (v : Q3) : Q3 :=
  (v.1 / normDivisor sqrtq v, v.2.1 / normDivisor sqrtq v, v.2.2 / normDivisor sqrtq v)

/-! ### Decimal digit rendering and reading

Infrastructure for the embedding of Python's decimal formatting
(`f"{x:.6f}"`, `str(int)`) and reading (`int(s)`, `float(s)`). -/

/-- The decimal digit characters. -/
def digitChar (d : ℕ) : Char :=
  if d = 0 then '0' else if d = 1 then '1' else if d = 2 then '2'
  else if d = 3 then '3' else if d = 4 then '4' else if d = 5 then '5'
  else if d = 6 then '6' else if d = 7 then '7' else if d = 8 then '8'
  else '9'

/-- Numeric value of a digit character. -/
def charVal (c : Char) : ℕ := c.toNat - 48

/-- Value of a left-to-right digit string. -/
def digitsVal (l : List Char) : ℕ := l.foldl (fun a c => 10 * a + charVal c) 0

/-- Decimal rendering of a natural number (Python `str` of a nonnegative
int): most significant digit first, `"0"` for zero. -/
def natRepr (n : ℕ) : List Char :=
  if n = 0 then ['0'] else (Nat.digits 10 n).reverse.map digitChar

/-- The six fractional digits of `f"{x:.6f}"`: `b < 10^6` rendered with
leading zeros. -/
def pad6 (b : ℕ) : List Char :=
  [digitChar (b / 100000 % 10), digitChar (b / 10000 % 10),
   digitChar (b / 1000 % 10), digitChar (b / 100 % 10),
   digitChar (b / 10 % 10), digitChar (b % 10)]

/-- Embedding of the Python format `f"{x:.6f}"`: the value is rounded to
an integer count `n` of millionths and rendered as
`sign ++ integer part ++ "." ++ six fractional digits`. -/
def fmt6 (q : ℚ) : List Char :=
  (if round (q * 1000000) < 0 then ['-'] else []) ++
    natRepr ((round (q * 1000000) : ℤ).natAbs / 1000000) ++
    '.' :: pad6 ((round (q * 1000000) : ℤ).natAbs % 1000000)

/-- The rational actually written by `fmt6` (6-decimal rounding). -/
def q6 (q : ℚ) : ℚ := ((round (q * 1000000) : ℤ) : ℚ) / 1000000

/-- `q6` applied componentwise to a vertex. -/
def q6v (v : Q3) : Q3 := (q6 v.1, q6 v.2.1, q6 v.2.2)

/-- Unsigned part of Python `int(s)`: a nonempty all-digit token. -/
def pyIntAbs (t : List Char) : Option ℤ :=
  if t ≠ [] ∧ t.all Char.isDigit then some (digitsVal t : ℤ) else none

/-- Embedding of Python `int(s)` on optionally signed digit tokens. -/
def pyInt? (s : List Char) : Option ℤ :=
  match s with
  | [] => none
  | c :: t =>
    if c = '-' then (pyIntAbs t).map Neg.neg
    else if c = '+' then pyIntAbs t
    else pyIntAbs (c :: t)

/-- Unsigned part of Python `float(s)` restricted to the fixed-point
decimal form `digits [ "." digits ]` with at least one digit. -/
def pyFloatAbs (t : List Char) : Option ℚ :=
  let ip := t.takeWhile Char.isDigit
  let r := t.dropWhile Char.isDigit
  match r with
  | [] => if ip.isEmpty then none else some ((digitsVal ip : ℚ))
  | '.' :: r2 =>
    let fp := r2.takeWhile Char.isDigit
    let r3 := r2.dropWhile Char.isDigit
    if r3.isEmpty = false then none
    else if ip.isEmpty && fp.isEmpty then none
    else some ((digitsVal ip : ℚ) + (digitsVal fp : ℚ) / 10 ^ fp.length)
  | _ => none

/-- Embedding of Python `float(s)` on optionally signed fixed-point
decimal tokens (the only form the OBJ writer emits). -/
def pyFloat? (s : List Char) : Option ℚ :=
  match s with
  | [] => none
  | c :: t =>
    if c = '-' then (pyFloatAbs t).map (fun q => -q)
    else if c = '+' then pyFloatAbs t
    else pyFloatAbs (c :: t)

/-! ### Digit lemmas -/

theorem charVal_digitChar {d : ℕ} (h : d < 10) : charVal (digitChar d) = d := by
  unfold digitChar
  interval_cases d <;> rfl

theorem isDigit_digitChar {d : ℕ} (h : d < 10) : (digitChar d).isDigit = true := by
  unfold digitChar
  interval_cases d <;> rfl

theorem isDigit_ne_dot {c : Char} (h : c.isDigit = true) : c ≠ '.' := by
  intro he; subst he; simp [Char.isDigit] at h

theorem isDigit_ne_minus {c : Char} (h : c.isDigit = true) : c ≠ '-' := by
  intro he; subst he; simp [Char.isDigit] at h

theorem isDigit_ne_plus {c : Char} (h : c.isDigit = true) : c ≠ '+' := by
  intro he; subst he; simp [Char.isDigit] at h

theorem isDigit_ne_slash {c : Char} (h : c.isDigit = true) : (c != '/') = true := by
  cases hc : (c == '/')
  · simp [bne, hc]
  · exfalso
    have : c = '/' := by exact beq_iff_eq.mp hc
    subst this; simp [Char.isDigit] at h

theorem digitsVal_append_digit (l : List Char) (c : Char) :
    digitsVal (l ++ [c]) = 10 * digitsVal l + charVal c := by
  unfold digitsVal
  rw [List.foldl_append]
  rfl

theorem digitsVal_rev_digits (l : List ℕ) (h : ∀ d ∈ l, d < 10) :
    digitsVal (l.reverse.map digitChar) = Nat.ofDigits 10 l := by
  induction l with
  | nil => rfl
  | cons a t ih =>
    have ha : a < 10 := h a (List.mem_cons_self a t)
    have ht : ∀ d ∈ t, d < 10 := fun d hd => h d (List.mem_cons_of_mem a hd)
    rw [List.reverse_cons, List.map_append]
    simp only [List.map_cons, List.map_nil]
    rw [digitsVal_append_digit, ih ht, charVal_digitChar ha, Nat.ofDigits_cons]
    ring

theorem digitsVal_natRepr (n : ℕ) : digitsVal (natRepr n) = n := by
  unfold natRepr
  by_cases h : n = 0
  · subst h; rfl
  · rw [if_neg h, digitsVal_rev_digits _ (fun d hd => Nat.digits_lt_base (by norm_num) hd),
      Nat.ofDigits_digits]

theorem natRepr_all_digits (n : ℕ) : ∀ c ∈ natRepr n, c.isDigit = true := by
  unfold natRepr
  by_cases h : n = 0
  · subst h; intro c hc; simp at hc; subst hc; rfl
  · rw [if_neg h]
    intro c hc
    rw [List.mem_map] at hc
    obtain ⟨d, hd, rfl⟩ := hc
    rw [List.mem_reverse] at hd
    exact isDigit_digitChar (Nat.digits_lt_base (by norm_num) hd)

theorem natRepr_ne_nil (n : ℕ) : natRepr n ≠ [] := by
  unfold natRepr
  by_cases h : n = 0
  · simp [h]
  · rw [if_neg h]
    simp [Nat.digits_ne_nil_iff_ne_zero, h]

theorem digitsVal_pad6 {b : ℕ} (h : b < 1000000) : digitsVal (pad6 b) = b := by
  unfold pad6 digitsVal
  simp only [List.foldl]
  rw [charVal_digitChar (Nat.mod_lt _ (by norm_num)),
    charVal_digitChar (Nat.mod_lt _ (by norm_num)),
    charVal_digitChar (Nat.mod_lt _ (by norm_num)),
    charVal_digitChar (Nat.mod_lt _ (by norm_num)),
    charVal_digitChar (Nat.mod_lt _ (by norm_num)),
    charVal_digitChar (Nat.mod_lt _ (by norm_num))]
  omega

theorem pad6_all_digits (b : ℕ) : ∀ c ∈ pad6 b, c.isDigit = true := by
  unfold pad6
  intro c hc
  simp only [List.mem_cons, List.not_mem_nil, or_false] at hc
  rcases hc with rfl | rfl | rfl | rfl | rfl | rfl <;>
    exact isDigit_digitChar (Nat.mod_lt _ (by norm_num))

theorem pad6_length (b : ℕ) : (pad6 b).length = 6 := rfl

/-! ### takeWhile / dropWhile helpers -/

theorem takeWhile_all {p : Char → Bool} : ∀ {l : List Char},
    (∀ c ∈ l, p c = true) → l.takeWhile p = l := by
  intro l
  induction l with
  | nil => intro _; rfl
  | cons a t ih =>
    intro h
    rw [List.takeWhile_cons, h a (List.mem_cons_self a t)]
    simp [ih (fun c hc => h c (List.mem_cons_of_mem a hc))]

theorem dropWhile_all {p : Char → Bool} : ∀ {l : List Char},
    (∀ c ∈ l, p c = true) → l.dropWhile p = [] := by
  intro l
  induction l with
  | nil => intro _; rfl
  | cons a t ih =>
    intro h
    rw [List.dropWhile_cons, h a (List.mem_cons_self a t)]
    simp [ih (fun c hc => h c (List.mem_cons_of_mem a hc))]

theorem takeWhile_append_all {p : Char → Bool} {l r : List Char}
    (h : ∀ c ∈ l, p c = true) : (l ++ r).takeWhile p = l ++ r.takeWhile p := by
  induction l with
  | nil => rfl
  | cons a t ih =>
    have ha := h a (List.mem_cons_self a t)
    have iht := ih (fun c hc => h c (List.mem_cons_of_mem a hc))
    simp [List.takeWhile_cons, ha, iht]

theorem dropWhile_append_all {p : Char → Bool} {l r : List Char}
    (h : ∀ c ∈ l, p c = true) : (l ++ r).dropWhile p = r.dropWhile p := by
  induction l with
  | nil => rfl
  | cons a t ih =>
    have ha := h a (List.mem_cons_self a t)
    have iht := ih (fun c hc => h c (List.mem_cons_of_mem a hc))
    simp [List.dropWhile_cons, ha, iht]

/-! ### int / float reading of written tokens -/

theorem pyInt?_cons (c : Char) (t : List Char) :
    pyInt? (c :: t) = if c = '-' then (pyIntAbs t).map Neg.neg
      else if c = '+' then pyIntAbs t else pyIntAbs (c :: t) := rfl

theorem pyFloat?_cons (c : Char) (t : List Char) :
    pyFloat? (c :: t) = if c = '-' then (pyFloatAbs t).map (fun q => -q)
      else if c = '+' then pyFloatAbs t else pyFloatAbs (c :: t) := rfl

theorem pyIntAbs_natRepr (m : ℕ) : pyIntAbs (natRepr m) = some (m : ℤ) := by
  unfold pyIntAbs
  rw [if_pos ⟨natRepr_ne_nil m, List.all_eq_true.mpr (fun c hc => natRepr_all_digits m c hc)⟩,
    digitsVal_natRepr]

theorem pyInt?_natRepr (m : ℕ) : pyInt? (natRepr m) = some (m : ℤ) := by
  obtain ⟨c, t, hct⟩ : ∃ c t, natRepr m = c :: t := by
    cases h : natRepr m with
    | nil => exact absurd h (natRepr_ne_nil m)
    | cons c t => exact ⟨c, t, rfl⟩
  have hd : c.isDigit = true := natRepr_all_digits m c (by rw [hct]; exact List.mem_cons_self c t)
  rw [hct, pyInt?_cons, if_neg (isDigit_ne_minus hd), if_neg (isDigit_ne_plus hd), ← hct,
    pyIntAbs_natRepr]

theorem pyFloatAbs_repr (a b : ℕ) (hb : b < 1000000) :
    pyFloatAbs (natRepr a ++ '.' :: pad6 b) = some ((a : ℚ) + (b : ℚ) / 1000000) := by
  have hdot : Char.isDigit '.' = false := rfl
  unfold pyFloatAbs
  rw [takeWhile_append_all (natRepr_all_digits a),
    dropWhile_append_all (natRepr_all_digits a)]
  simp only [List.takeWhile_cons, List.dropWhile_cons, hdot, Bool.false_eq_true, if_false,
    List.append_nil]
  rw [takeWhile_all (pad6_all_digits b), dropWhile_all (pad6_all_digits b)]
  simp only [List.isEmpty_nil]
  rw [if_neg (by simp)]
  rw [if_neg (by
    intro hc
    rw [Bool.and_eq_true] at hc
    have := hc.1
    rw [List.isEmpty_iff] at this
    exact natRepr_ne_nil a this)]
  rw [digitsVal_natRepr, digitsVal_pad6 hb, pad6_length]
  norm_num

theorem fmt6_parse (q : ℚ) : pyFloat? (fmt6 q) = some (q6 q) := by
  unfold fmt6 q6
  set n : ℤ := round (q * 1000000) with hn
  set m : ℕ := n.natAbs with hm
  have hmod : m % 1000000 < 1000000 := Nat.mod_lt _ (by norm_num)
  have habs : pyFloatAbs (natRepr (m / 1000000) ++ '.' :: pad6 (m % 1000000))
      = some ((m : ℚ) / 1000000) := by
    rw [pyFloatAbs_repr _ _ hmod]
    congr 1
    have hnat : m / 1000000 * 1000000 + m % 1000000 = m := by omega
    have hq : ((m / 1000000 : ℕ) : ℚ) * 1000000 + ((m % 1000000 : ℕ) : ℚ) = (m : ℚ) := by
      exact_mod_cast hnat
    field_simp
    linarith [hq]
  by_cases hneg : n < 0
  · rw [if_pos hneg]
    have hsh : ((['-'] : List Char) ++ natRepr (m / 1000000)) ++ '.' :: pad6 (m % 1000000)
        = '-' :: (natRepr (m / 1000000) ++ '.' :: pad6 (m % 1000000)) := by simp
    rw [hsh, pyFloat?_cons, if_pos rfl, habs]
    have hcast : ((n : ℚ)) = -(m : ℚ) := by
      rw [hm]
      push_cast [Int.cast_natAbs]
      rw [abs_of_neg (show ((n : ℚ)) < 0 by exact_mod_cast hneg)]
      ring
    rw [hcast]
    have hmap : Option.map (fun q : ℚ => -q) (some ((m : ℚ) / 1000000))
        = some (-((m : ℚ) / 1000000)) := rfl
    rw [hmap]
    congr 1
    ring
  · rw [if_neg hneg]
    have hsh : (([] : List Char) ++ natRepr (m / 1000000)) ++ '.' :: pad6 (m % 1000000)
        = natRepr (m / 1000000) ++ '.' :: pad6 (m % 1000000) := by simp
    rw [hsh]
    obtain ⟨c, t, hct⟩ : ∃ c t, natRepr (m / 1000000) = c :: t := by
      cases h : natRepr (m / 1000000) with
      | nil => exact absurd h (natRepr_ne_nil _)
      | cons c t => exact ⟨c, t, rfl⟩
    have hd : c.isDigit = true :=
      natRepr_all_digits _ c (by rw [hct]; exact List.mem_cons_self c t)
    rw [hct, List.cons_append, pyFloat?_cons, if_neg (isDigit_ne_minus hd),
      if_neg (isDigit_ne_plus hd), ← List.cons_append, ← hct, habs]
    have hcast : ((n : ℚ)) = (m : ℚ) := by
      rw [hm]
      push_cast [Int.cast_natAbs]
      rw [abs_of_nonneg (show (0:ℚ) ≤ (n : ℚ) by exact_mod_cast (not_lt.mp hneg))]
    rw [hcast]

/-! ### Primitive generators (`src/ai/generator.py`)

Each Python `for i in range(n): ...append...` loop is embedded as
`catRange n f`, the concatenation `f 0 ++ f 1 ++ ... ++ f (n-1)` in
iteration order.  The abstract parameters `piq`, `cosq`, `sinq` embed
`math.pi`, `math.cos`, `math.sin`: the face combinatorics and all counts
are independent of their values. -/

/-- Concatenation of `f i` for `i = 0, ..., n-1` in order (a Python
`for i in range(n)` append loop). -/
def catRange (n : ℕ) (f : ℕ → List α) : List α :=
  match n with
  | 0 => []
  | k + 1 => catRange k f ++ f k

theorem catRange_length_const (n : ℕ) (f : ℕ → List α) (m : ℕ)
    (h : ∀ i, i < n → (f i).length = m) : (catRange n f).length = n * m := by
  induction n with
  | zero => simp [catRange]
  | succ k ih =>
    rw [catRange, List.length_append, ih (fun i hi => h i (Nat.lt_succ_of_lt hi)),
      h k (Nat.lt_succ_self k)]
    ring

/-- A face: a triple of vertex indices as produced by the generators. -/
abbrev TriN := ℕ × ℕ × ℕ

/-- The face list of `_cube`. -/
def cubeFaces : List TriN :=
  [(0,1,2),(0,2,3),(4,5,6),(4,6,7),
   (0,1,5),(0,5,4),(2,3,7),(2,7,6),
   (1,2,6),(1,6,5),(0,3,7),(0,7,4)]

/-- `_cube` from generator.py. -/
def cube (size : ℚ) : List Q3 × List TriN :=
  ([(-(size * 0.5), -(size * 0.5), -(size * 0.5)),
    (size * 0.5, -(size * 0.5), -(size * 0.5)),
    (size * 0.5, size * 0.5, -(size * 0.5)),
    (-(size * 0.5), size * 0.5, -(size * 0.5)),
    (-(size * 0.5), -(size * 0.5), size * 0.5),
    (size * 0.5, -(size * 0.5), size * 0.5),
    (size * 0.5, size * 0.5, size * 0.5),
    (-(size * 0.5), size * 0.5, size * 0.5)],
   cubeFaces)

/-- `idx(i,j) = i*seg + (j % seg)` from `_uv_sphere`. -/
def sphereIdx (seg i j : ℕ) : ℕ := i * seg + j % seg

/-- One vertex of `_uv_sphere` at ring `i`, segment `j`. -/
def sphereVert (piq : ℚ) (cosq sinq : ℚ → ℚ) (radius : ℚ) (seg rings i j : ℕ) : Q3 :=
  let theta := piq * i / rings
  let r := radius * sinq theta
  let phi := 2 * piq * j / seg
  (r * cosq phi, radius * cosq theta, r * sinq phi)

/-- The vertex list of `_uv_sphere` (rings `0..rings`, segments `0..seg-1`). -/
def sphereVerts (piq : ℚ) (cosq sinq : ℚ → ℚ) (radius : ℚ) (seg rings : ℕ) : List Q3 :=
  catRange (rings + 1) (fun i => (List.range seg).map (sphereVert piq cosq sinq radius seg rings i))

/-- The faces `_uv_sphere` appends during outer-loop iteration `i`
(one triangle per quad at the pole rows `i = 0` and `i = rings-1`,
two per quad in interior rows). -/
def sphereRowFaces (seg rings i : ℕ) : List TriN :=
  catRange seg (fun j =>
    let a := sphereIdx seg i j
    let b := sphereIdx seg (i+1) j
    let c := sphereIdx seg (i+1) (j+1)
    let d := sphereIdx seg i (j+1)
    if i = 0 then [(a, b, c)]
    else if i = rings - 1 then [(a, b, d)]
    else [(a, b, c), (a, c, d)])

/-- The face list of `_uv_sphere`. -/
def sphereFaces (seg rings : ℕ) : List TriN :=
  catRange rings (fun i => sphereRowFaces seg rings i)

/-- `_uv_sphere` from generator.py. -/
def uv_sphere (piq : ℚ) (cosq sinq : ℚ → ℚ) (radius : ℚ) (seg rings : ℕ) :
    List Q3 × List TriN :=
  (sphereVerts piq cosq sinq radius seg rings, sphereFaces seg rings)

/-- `idx(i,j) = (i%ring)*seg + (j%seg)` from `_torus`. -/
def torusIdx (seg ring i j : ℕ) : ℕ := (i % ring) * seg + j % seg

/-- One vertex of `_torus` at major index `i`, minor index `j`. -/
def torusVert (piq : ℚ) (cosq sinq : ℚ → ℚ) (R r : ℚ) (seg ring i j : ℕ) : Q3 :=
  let u := 2 * piq * i / ring
  let v := 2 * piq * j / seg
  ((R + r * cosq v) * cosq u, r * sinq v, (R + r * cosq v) * sinq u)

/-- The face list of `_torus` (two triangles per quad, both indices
wrapping). -/
def torusFaces (seg ring : ℕ) : List TriN :=
  catRange ring (fun i => catRange seg (fun j =>
    let a := torusIdx seg ring i j
    let b := torusIdx seg ring (i+1) j
    let c := torusIdx seg ring (i+1) (j+1)
    let d := torusIdx seg ring i (j+1)
    [(a, b, c), (a, c, d)]))

/-- `_torus` from generator.py. -/
def torus (piq : ℚ) (cosq sinq : ℚ → ℚ) (R r : ℚ) (seg ring : ℕ) :
    List Q3 × List TriN :=
  (catRange ring (fun i => (List.range seg).map (torusVert piq cosq sinq R r seg ring i)),
   torusFaces seg ring)

/-- The face list of `_cone`: per segment one side triangle to the apex
(index `seg`) and one base triangle from the base center (`seg + 1`). -/
def coneFaces (seg : ℕ) : List TriN :=
  catRange seg (fun j => [(j, (j+1) % seg, seg), (seg + 1, (j+1) % seg, j)])

/-- `_cone` from generator.py.  The base-circle vertices occupy indices
`0..seg-1`; the apex is appended at index `apex_i = len(verts) = seg`
and the base center at `center_i = seg + 1`. -/
def cone (piq : ℚ) (cosq sinq : ℚ → ℚ) (radius height : ℚ) (seg : ℕ) :
    List Q3 × List TriN :=
  ((List.range seg).map (fun (j : ℕ) =>
      (radius * cosq (2 * piq * j / seg), -height / 2, radius * sinq (2 * piq * j / seg)))
    ++ [(0, height / 2, 0), (0, -height / 2, 0)],
   coneFaces seg)

/-- The face list of `_cylinder`, with `top[j] = 2*j`, `bot[j] = 2*j+1`,
`top_c = 2*seg`, `bot_c = 2*seg+1` (the append order of the source): per
segment two side triangles, one top-cap and one bottom-cap triangle. -/
def cylFaces (seg : ℕ) : List TriN :=
  catRange seg (fun j =>
    let a := 2 * j + 1
    let b := 2 * ((j+1) % seg) + 1
    let c := 2 * ((j+1) % seg)
    let d := 2 * j
    [(a, b, c), (a, c, d), (2 * seg, d, c), (2 * seg + 1, b, a)])

/-- `_cylinder` from generator.py.  The loop appends the top vertex then
the bottom vertex of each segment, so `top[j] = 2*j`, `bot[j] = 2*j+1`;
the cap centers follow at `top_c = 2*seg`, `bot_c = 2*seg+1`. -/
def cylinder (piq : ℚ) (cosq sinq : ℚ → ℚ) (radius height : ℚ) (seg : ℕ) :
    List Q3 × List TriN :=
  (catRange seg (fun (j : ℕ) =>
      [(radius * cosq (2 * piq * j / seg), height / 2, radius * sinq (2 * piq * j / seg)),
       (radius * cosq (2 * piq * j / seg), -height / 2, radius * sinq (2 * piq * j / seg))])
    ++ [(0, height / 2, 0), (0, -height / 2, 0)],
   cylFaces seg)

/-- `_make_shape` from generator.py: the dispatch with each builder's
default parameters. -/
def make_shape (piq : ℚ) (cosq sinq : ℚ → ℚ) (name : String) : List Q3 × List TriN :=
  if name = "sphere" then uv_sphere piq cosq sinq 0.6 32 16
  else if name = "torus" then torus piq cosq sinq 0.65 0.22 40 24
  else if name = "cone" then cone piq cosq sinq 0.6 1.0 40
  else if name = "cylinder" then cylinder piq cosq sinq 0.5 1.0 40
  else cube 1.0

/-! ### OBJ writer (`_write_obj` in generator.py)

A written file is modelled at token level: each emitted text line becomes
the list of its whitespace-separated tokens. -/

/-- One line of an OBJ file, as its whitespace-split tokens. -/
abbrev ObjLine := List (List Char)

/-- The token `generated` of the object-name header line. -/
def genName : List Char := ['g','e','n','e','r','a','t','e','d']

/-- The tokens of a vertex line `v {x:.6f} {y:.6f} {z:.6f}`. -/
def vLine (v : Q3) : ObjLine := [['v'], fmt6 v.1, fmt6 v.2.1, fmt6 v.2.2]

/-- The tokens of a face line `f {a+1} {b+1} {c+1}` (OBJ is 1-based). -/
def fLine (t : TriN) : ObjLine :=
  [['f'], natRepr (t.1 + 1), natRepr (t.2.1 + 1), natRepr (t.2.2 + 1)]

/-- `_write_obj` from generator.py: the header line `o generated`, then
one line per vertex in order, then one line per face in order. -/
def write_obj (verts : List Q3) (faces : List TriN) : List ObjLine :=
  [['o'], genName] :: verts.map vLine ++ faces.map fLine

/-! ### OBJ parser (`_load_obj` in renderer.py)

Failure of `float(...)` / `int(...)` (a `ValueError` escaping the parse
loop) is modelled as `none`.  Face indices are stored as produced — as
integers, possibly negative or out of range, because the source performs
no validation after the `idx-1` shift. -/

/-- A parsed mesh: the local `verts`/`faces` pair built by `_load_obj`. -/
structure PMesh where
  verts : List Q3
  faces : List (ℤ × ℤ × ℤ)
deriving DecidableEq

/-- `p.split("/")[0]`: the leading part of the token before the first slash. -/
def firstField (p : List Char) : List Char := p.takeWhile (fun c => c != '/')

/-- The index shift of `_load_obj`: `if idx < 0: idx = len(verts)+idx+1`
followed by the 1-based → 0-based shift `idx - 1`. -/
def resolveIdx (n idx : ℤ) : ℤ := (if idx < 0 then n + idx + 1 else idx) - 1

/-- The inner loop `for p in parts[1:]` of a face line: skip tokens with
an empty vertex field, fail the parse on a malformed integer, otherwise
append the resolved index.  `n` is `len(verts)` at this point. -/
def faceIdxs (n : ℤ) : List (List Char) → Option (List ℤ)
  | [] => some []
  | p :: rest =>
    let v := firstField p
    if v.isEmpty then faceIdxs n rest
    else
      match pyInt? v with
      | none => none
      | some idx => (faceIdxs n rest).map (fun l => resolveIdx n idx :: l)

/-- Consecutive pairs `(l[i], l[i+1])`. -/
def consecPairs : List ℤ → List (ℤ × ℤ)
  | a :: b :: t => (a, b) :: consecPairs (b :: t)
  | _ => []

/-- The fan triangulation `for i in range(1, len(idxs)-1):
faces.append((idxs[0], idxs[i], idxs[i+1]))`. -/
def fanTris : List ℤ → List (ℤ × ℤ × ℤ)
  | [] => []
  | v0 :: rest => (consecPairs rest).map (fun ab => (v0, ab.1, ab.2))

/-- The line loop of `_load_obj` carrying the accumulated `verts` and
`faces`.  A line is examined only when it has a first token `v` or `f`
and at least four tokens, exactly as in the source; every other line
(blank, comment, header, short) is skipped. -/
def parseAux : List ObjLine → List Q3 → List (ℤ × ℤ × ℤ) → Option PMesh
  | [], vs, fs => some ⟨vs, fs⟩
  | ln :: rest, vs, fs =>
    match ln with
    | p0 :: p1 :: p2 :: p3 :: _ =>
      if p0 = ['v'] then
        match pyFloat? p1, pyFloat? p2, pyFloat? p3 with
        | some x, some y, some z => parseAux rest (vs ++ [(x, y, z)]) fs
        | _, _, _ => none
      else if p0 = ['f'] then
        match faceIdxs (vs.length : ℤ) (ln.tail) with
        | none => none
        | some idxs => parseAux rest vs (fs ++ fanTris idxs)
      else parseAux rest vs fs
    | _ => parseAux rest vs fs

/-- The parsing part of `_load_obj`: the `verts`/`faces` built from the
file's token lines, or `none` when a conversion error escapes. -/
def parseObjTokens (lines : List ObjLine) : Option PMesh := parseAux lines [] []

/-! ### Write/parse round trip -/

/-- A generator face triple, as the integer triple the parser produces. -/
def triCast (t : TriN) : ℤ × ℤ × ℤ := ((t.1 : ℤ), (t.2.1 : ℤ), (t.2.2 : ℤ))

theorem isEmpty_false_of_ne_nil {l : List Char} (h : l ≠ []) : l.isEmpty = false := by
  cases l with
  | nil => exact absurd rfl h
  | cons a t => rfl

theorem firstField_natRepr (k : ℕ) : firstField (natRepr k) = natRepr k :=
  takeWhile_all (fun c hc => isDigit_ne_slash (natRepr_all_digits k c hc))

theorem faceIdxs_natRepr_cons (n : ℤ) (k : ℕ) (rest : List (List Char)) :
    faceIdxs n (natRepr (k + 1) :: rest)
      = (faceIdxs n rest).map (fun l => (k : ℤ) :: l) := by
  rw [faceIdxs]
  simp only [firstField_natRepr,
    isEmpty_false_of_ne_nil (natRepr_ne_nil (k + 1)), Bool.false_eq_true, if_false,
    pyInt?_natRepr]
  have hres : resolveIdx n ((k + 1 : ℕ) : ℤ) = (k : ℤ) := by
    unfold resolveIdx
    rw [if_neg (by push_cast; omega)]
    push_cast
    ring
  rw [hres]

theorem faceIdxs_fLine_tail (n : ℤ) (t : TriN) :
    faceIdxs n [natRepr (t.1 + 1), natRepr (t.2.1 + 1), natRepr (t.2.2 + 1)]
      = some [(t.1 : ℤ), (t.2.1 : ℤ), (t.2.2 : ℤ)] := by
  rw [faceIdxs_natRepr_cons, faceIdxs_natRepr_cons, faceIdxs_natRepr_cons]
  rfl

theorem parseAux_vline (v : Q3) (rest : List ObjLine) (vs : List Q3)
    (fs : List (ℤ × ℤ × ℤ)) :
    parseAux (vLine v :: rest) vs fs = parseAux rest (vs ++ [q6v v]) fs := by
  rw [vLine, parseAux]
  simp only [fmt6_parse, if_pos rfl]
  rfl

theorem parseAux_fline (t : TriN) (rest : List ObjLine) (vs : List Q3)
    (fs : List (ℤ × ℤ × ℤ)) :
    parseAux (fLine t :: rest) vs fs = parseAux rest vs (fs ++ [triCast t]) := by
  rw [fLine, parseAux]
  rw [if_neg (by decide), if_pos rfl]
  have htail : ([['f'], natRepr (t.1 + 1), natRepr (t.2.1 + 1),
      natRepr (t.2.2 + 1)] : ObjLine).tail
      = [natRepr (t.1 + 1), natRepr (t.2.1 + 1), natRepr (t.2.2 + 1)] := rfl
  rw [htail, faceIdxs_fLine_tail]
  rfl

theorem parseAux_vlines (l : List Q3) (rest : List ObjLine) (vs : List Q3)
    (fs : List (ℤ × ℤ × ℤ)) :
    parseAux (l.map vLine ++ rest) vs fs = parseAux rest (vs ++ l.map q6v) fs := by
  induction l generalizing vs with
  | nil => simp
  | cons v t ih =>
    rw [List.map_cons, List.cons_append, parseAux_vline, ih, List.map_cons]
    simp

theorem parseAux_flines (l : List TriN) (vs : List Q3) (fs : List (ℤ × ℤ × ℤ)) :
    parseAux (l.map fLine) vs fs = some ⟨vs, fs ++ l.map triCast⟩ := by
  induction l generalizing fs with
  | nil => simp [parseAux]
  | cons t r ih =>
    rw [List.map_cons, parseAux_fline, ih, List.map_cons]
    simp

/-- Parsing the written token lines of any mesh succeeds and reproduces
the mesh: the faces exactly, the vertices rounded to the writer's six
decimals. -/
theorem write_parse_round_trip (vs : List Q3) (fs : List TriN) :
    parseObjTokens (write_obj vs fs) = some ⟨vs.map q6v, fs.map triCast⟩ := by
  have h0 : parseObjTokens (write_obj vs fs)
      = parseAux (vs.map vLine ++ fs.map fLine) [] [] := rfl
  rw [h0, parseAux_vlines, parseAux_flines, List.nil_append, List.nil_append]

/-- C1: for every mesh produced by any of the five primitive generators
(any shape name, `_make_shape` covering the five builders), parsing the
written text yields a mesh with the same vertex count, the same face
count, identical face index triples, and vertex coordinates equal to the
writer's 6-decimal rounding of the originals. -/
theorem C1_round_trip (piq : ℚ) (cosq sinq : ℚ → ℚ) (name : String) :
    ∃ P : PMesh,
      parseObjTokens (write_obj (make_shape piq cosq sinq name).1
        (make_shape piq cosq sinq name).2) = some P ∧
      P.verts.length = (make_shape piq cosq sinq name).1.length ∧
      P.faces.length = (make_shape piq cosq sinq name).2.length ∧
      P.faces = (make_shape piq cosq sinq name).2.map triCast ∧
      P.verts = (make_shape piq cosq sinq name).1.map q6v := by
  refine ⟨⟨(make_shape piq cosq sinq name).1.map q6v,
    (make_shape piq cosq sinq name).2.map triCast⟩,
    write_parse_round_trip _ _, ?_, ?_, rfl, rfl⟩
  · exact List.length_map _ _
  · exact List.length_map _ _

/-! ### Viewer mesh state (`SimpleGLViewport` in renderer.py)

The mesh-related instance fields and the methods `_load_obj`,
`_compute_bounds`, `_compute_vertex_normals`. -/

/-- The mesh-related fields of `SimpleGLViewport`: `_verts`, `_faces`,
`_vnorms`, `_bbox` (as `(minx,miny,minz,maxx,maxy,maxz)`), `_center`. -/
structure Viewer where
  verts : List Q3
  faces : List (ℤ × ℤ × ℤ)
  vnorms : List Q3
  bbox : Option (ℚ × ℚ × ℚ × ℚ × ℚ × ℚ)
  center : Q3
deriving DecidableEq

/-- Python `min` over a list; applied only to nonempty lists by
`_compute_bounds` (the `[]` case is unreachable there). -/
def pyMin (l : List ℚ) : ℚ :=
  match l with
  | [] => 0
  | h :: t => t.foldl min h

/-- Python `max` over a list; applied only to nonempty lists. -/
def pyMax (l : List ℚ) : ℚ :=
  match l with
  | [] => 0
  | h :: t => t.foldl max h

/-- `_compute_bounds`: sets `_bbox`/`_center` from the current `_verts`. -/
def compute_bounds (st : Viewer) : Viewer :=
  match st.verts with
  | [] => { st with bbox := none, center := (0, 0, 0) }
  | _ :: _ =>
    let xs := st.verts.map (fun v => v.1)
    let ys := st.verts.map (fun v => v.2.1)
    let zs := st.verts.map (fun v => v.2.2)
    { st with
      bbox := some (pyMin xs, pyMin ys, pyMin zs, pyMax xs, pyMax ys, pyMax zs),
      center := ((pyMin xs + pyMax xs) / 2, (pyMin ys + pyMax ys) / 2,
        (pyMin zs + pyMax zs) / 2) }

/-- Python list read `l[i]`: negative indices count from the end, out of
range raises (`none`). -/
def pyGet (l : List α) (i : ℤ) : Option α :=
  let j := if i < 0 then (l.length : ℤ) + i else i
  if 0 ≤ j ∧ j < (l.length : ℤ) then l.get? j.toNat else none

/-- Python list write `l[i] = x`, same index rule as `pyGet`. -/
def pySet (l : List α) (i : ℤ) (x : α) : Option (List α) :=
  let j := if i < 0 then (l.length : ℤ) + i else i
  if 0 ≤ j ∧ j < (l.length : ℤ) then some (l.set j.toNat x) else none

/-- The per-face accumulation loop of `_compute_vertex_normals`: read the
three corner vertices, add the face's flat normal into the three
accumulator slots in order.  Any out-of-range index raises (`none`). -/
def accNormals (sqrtq : ℚ → ℚ) (verts : List Q3) :
    List (ℤ × ℤ × ℤ) → List Q3 → Option (List Q3)
  | [], acc => some acc
  | (a, b, c) :: rest, acc =>
    match pyGet verts a, pyGet verts b, pyGet verts c with
    | some v0, some v1, some v2 =>
      let n := normalize sqrtq (cross (sub v1 v0) (sub v2 v0))
      match pyGet acc a with
      | none => none
      | some ga =>
        match pySet acc a (add ga n) with
        | none => none
        | some acc1 =>
          match pyGet acc1 b with
          | none => none
          | some gb =>
            match pySet acc1 b (add gb n) with
            | none => none
            | some acc2 =>
              match pyGet acc2 c with
              | none => none
              | some gc =>
                match pySet acc2 c (add gc n) with
                | none => none
                | some acc3 => accNormals sqrtq verts rest acc3
    | _, _, _ => none

/-- `_compute_vertex_normals`: `none` models an `IndexError` escaping the
accumulation loop (in which case `_vnorms` keeps its old value). -/
def compute_vertex_normals (sqrtq : ℚ → ℚ) (verts : List Q3)
    (faces : List (ℤ × ℤ × ℤ)) : Option (List Q3) :=
  if verts.isEmpty || faces.isEmpty then some []
  else
    match accNormals sqrtq verts faces (List.replicate verts.length (0, 0, 0)) with
    | none => none
    | some acc => some (acc.map (normalize sqrtq))

/-- `_load_obj` run against a viewer state: the resulting state and a flag
recording whether an exception escaped.  A conversion error during
parsing raises before any field is assigned; an `IndexError` during
normal computation raises after `_verts`/`_faces`/`_bbox` were already
replaced, leaving the old `_vnorms`. -/
def load_obj (sqrtq : ℚ → ℚ) (st : Viewer) (lines : List ObjLine) : Viewer × Bool :=
  match parseObjTokens lines with
  | none => (st, true)
  | some m =>
    let st1 := compute_bounds { st with verts := m.verts, faces := m.faces }
    match compute_vertex_normals sqrtq st1.verts st1.faces with
    | none => (st1, true)
    | some ns => ({ st1 with vnorms := ns }, false)

/-! ### Camera and framing model (renderer.py)

`math.radians`, `math.cos`, `math.sin` are embedded through the abstract
`piq`, `cosr`, `sinr`. -/

/-- The camera fields `_cam_pos`, `_yaw`, `_pitch`, `_dist`. -/
structure Cam where
  pos : Q3
  yaw : ℚ
  pitch : ℚ
  dist : ℚ
deriving DecidableEq

/-- The field-of-view angle passed to `gluPerspective` in `resizeGL`. -/
def fov_deg : ℚ := 45

/-- `math.radians`: degrees to radians, `x * pi / 180`. -/
def radiansq (piq x : ℚ) : ℚ := x * piq / 180

/-- `_basis`: forward from yaw/pitch, right and up by normalized cross
products against world up `(0,1,0)`. -/
def basis (piq : ℚ) (cosr sinr sqrtq : ℚ → ℚ) (yaw pitch : ℚ) : Q3 × Q3 × Q3 :=
  let cp := radiansq piq pitch
  let cy := radiansq piq yaw
  let fwd := normalize sqrtq (cosr cp * sinr cy, sinr cp, cosr cp * cosr cy)
  let right := normalize sqrtq (cross fwd (0, 1, 0))
  let up := normalize sqrtq (cross right fwd)
  (fwd, right, up)

/-- `_frame_to_fit`: with no bounding box, reset to the default pose;
otherwise clamp the largest box dimension to `0.25`, set
`_dist = 2.2 * size`, reset yaw/pitch to `35 / -20`, and place the camera
at `center - forward * dist`. -/
def frame_to_fit (piq : ℚ) (cosr sinr sqrtq : ℚ → ℚ)
    (bbox : Option (ℚ × ℚ × ℚ × ℚ × ℚ × ℚ)) (center : Q3) (cam : Cam) : Cam :=
  match bbox with
  | none => { cam with pos := (0, 0.75, 3.5), yaw := 35, pitch := -20, dist := 3.5 }
  | some (minx, miny, minz, maxx, maxy, maxz) =>
    let size := max (max (maxx - minx) (maxy - miny)) (maxz - minz)
    let size := max size 0.25
    let dist := 2.2 * size
    let fwd := (basis piq cosr sinr sqrtq 35 (-20)).1
    { pos := sub center (mul fwd dist), yaw := 35, pitch := -20, dist := dist }

/-- The clamped time step of `_tick`:
`dt = max(0.0, min(0.05, now - self._last_t))`. -/
def tick_dt (lastT now : ℚ) : ℚ := max 0 (min 0.05 (now - lastT))

/-- `self._move_speed` as set in `__init__`. -/
def move_speed : ℚ := 1.5

/-- The subset of `self._keys` relevant to `_update_movement`: the six
movement keys, Shift, and a flag for any other held key (which makes the
set nonempty without contributing movement). -/
structure KeyState where
  w : Bool
  s : Bool
  a : Bool
  d : Bool
  e : Bool
  q : Bool
  shift : Bool
  other : Bool
deriving DecidableEq

/-- `if not self._keys: return` — the held-key set is empty. -/
def keysHeld (k : KeyState) : Bool :=
  k.w || k.s || k.a || k.d || k.e || k.q || k.shift || k.other

/-- The movement vector summed from the held directions in
`_update_movement` (W/S along forward, D/A along right, E/Q along up). -/
def moveVec (piq : ℚ) (cosr sinr sqrtq : ℚ → ℚ) (yaw pitch : ℚ) (ks : KeyState) : Q3 :=
  let b := basis piq cosr sinr sqrtq yaw pitch
  let m : Q3 := (0, 0, 0)
  let m := if ks.w then add m b.1 else m
  let m := if ks.s then sub m b.1 else m
  let m := if ks.d then add m b.2.1 else m
  let m := if ks.a then sub m b.2.1 else m
  let m := if ks.e then add m b.2.2 else m
  let m := if ks.q then sub m b.2.2 else m
  m

/-- `_update_movement(dt)`: early-return on an empty key set, double speed
factor 2.25 while Shift is held, normalize the summed direction when it
is nonzero and advance the camera position by `speed * dt` along it. -/
def update_movement (piq : ℚ) (cosr sinr sqrtq : ℚ → ℚ) (ks : KeyState)
    (dt yaw pitch : ℚ) (pos : Q3) : Q3 :=
  if keysHeld ks = false then pos
  else
    let spd := move_speed * (if ks.shift then 2.25 else 1)
    let m := moveVec piq cosr sinr sqrtq yaw pitch ks
    if m ≠ (0, 0, 0) then add pos (mul (normalize sqrtq m) (spd * dt)) else pos

/-! ### Shared geometry lemmas -/

theorem normSq_eq_zero_iff (v : Q3) : normSq v = 0 ↔ v = (0, 0, 0) := by
  obtain ⟨x, y, z⟩ := v
  unfold normSq
  constructor
  · intro h
    have hx : x = 0 := by nlinarith [mul_self_nonneg x, mul_self_nonneg y, mul_self_nonneg z]
    have hy : y = 0 := by nlinarith [mul_self_nonneg x, mul_self_nonneg y, mul_self_nonneg z]
    have hz : z = 0 := by nlinarith [mul_self_nonneg x, mul_self_nonneg y, mul_self_nonneg z]
    simp [hx, hy, hz]
  · intro h
    obtain ⟨h1, h2⟩ := Prod.mk.injEq .. ▸ h
    obtain ⟨h2, h3⟩ := Prod.mk.injEq .. ▸ h2
    simp only [h1, h2, h3]
    ring

theorem normDivisor_ne_zero (sqrtq : ℚ → ℚ) (v : Q3) : normDivisor sqrtq v ≠ 0 := by
  unfold normDivisor pyOr
  by_cases h : sqrtq (normSq v) = 0
  · rw [if_pos h]; norm_num
  · rw [if_neg h]; exact h

theorem normSq_normalize_eq_one (sqrtq : ℚ → ℚ) (v : Q3)
    (hs : sqrtq (normSq v) * sqrtq (normSq v) = normSq v)
    (hv : normSq v ≠ 0) : normSq (normalize sqrtq v) = 1 := by
  have hsq : sqrtq (normSq v) ≠ 0 := fun h => hv (by rw [← hs, h, zero_mul])
  have hL : normDivisor sqrtq v = sqrtq (normSq v) := by
    unfold normDivisor pyOr
    rw [if_neg hsq]
  have key : normSq (normalize sqrtq v)
      = normSq v / (normDivisor sqrtq v * normDivisor sqrtq v) := by
    unfold normalize normSq
    rw [div_mul_div_comm, div_mul_div_comm, div_mul_div_comm, div_add_div_same,
      div_add_div_same]
  rw [key, hL, hs, div_self hv]

theorem normSq_mul (v : Q3) (s : ℚ) : normSq (mul v s) = normSq v * (s * s) := by
  obtain ⟨x, y, z⟩ := v
  unfold normSq mul
  ring

theorem sub_add_cancel3 (p w : Q3) : sub (add p w) p = w := by
  obtain ⟨x, y, z⟩ := p
  obtain ⟨a, b, c⟩ := w
  unfold add sub
  simp only [Prod.mk.injEq]
  refine ⟨by ring, by ring, by ring⟩

theorem sub_self3 (p : Q3) : sub p p = (0, 0, 0) := by
  obtain ⟨x, y, z⟩ := p
  unfold sub
  simp only [Prod.mk.injEq]
  refine ⟨by ring, by ring, by ring⟩

/-- C9: `_normalize` of the zero vector returns the zero vector; its
divisor is never zero (so no division error can occur); and on a nonzero
vector, assuming `math.sqrt` behaves as a square root at the one point
where it is called, the result is the vector divided by its Euclidean
length (the nonnegative `L` with `L * L = normSq v`). -/
theorem C9_normalize (sqrtq : ℚ → ℚ) (v : Q3)
    (hz : sqrtq 0 = 0)
    (hs : sqrtq (normSq v) * sqrtq (normSq v) = normSq v)
    (hp : 0 ≤ sqrtq (normSq v))
    (hv : v ≠ (0, 0, 0)) :
    normalize sqrtq (0, 0, 0) = (0, 0, 0) ∧
    (∀ w : Q3, normDivisor sqrtq w ≠ 0) ∧
    ∃ L : ℚ, 0 ≤ L ∧ L * L = normSq v ∧ L ≠ 0 ∧
      normalize sqrtq v = (v.1 / L, v.2.1 / L, v.2.2 / L) := by
  have hnv : normSq v ≠ 0 := fun h => hv ((normSq_eq_zero_iff v).mp h)
  have hsq : sqrtq (normSq v) ≠ 0 := fun h => hnv (by rw [← hs, h, zero_mul])
  have hz0 : normSq ((0 : ℚ), (0 : ℚ), (0 : ℚ)) = 0 := by unfold normSq; ring
  refine ⟨?_, fun w => normDivisor_ne_zero sqrtq w, ?_⟩
  · unfold normalize normDivisor pyOr
    rw [hz0, hz, if_pos rfl]
    norm_num
  · refine ⟨sqrtq (normSq v), hp, hs, hsq, ?_⟩
    have hL : normDivisor sqrtq v = sqrtq (normSq v) := by
      unfold normDivisor pyOr
      rw [if_neg hsq]
    unfold normalize
    rw [hL]

/-- Square-root oracle used to instantiate hypothesis-bearing theorems at
concrete inputs. -/
def sqrtWitness (q : ℚ) : ℚ := if q = 25 then 5 else if q = 1 then 1 else 0

/-- Closed instance of C9 at `v = (3, 0, 4)`. -/
theorem C9_witness :
    normalize sqrtWitness (0, 0, 0) = (0, 0, 0) ∧
    (∀ w : Q3, normDivisor sqrtWitness w ≠ 0) ∧
    ∃ L : ℚ, 0 ≤ L ∧ L * L = normSq ((3 : ℚ), (0 : ℚ), (4 : ℚ)) ∧ L ≠ 0 ∧
      normalize sqrtWitness (3, 0, 4)
        = ((3 : ℚ) / L, (0 : ℚ) / L, (4 : ℚ) / L) :=
  C9_normalize sqrtWitness (3, 0, 4) (by norm_num [sqrtWitness])
    (by norm_num [sqrtWitness, normSq]) (by norm_num [sqrtWitness, normSq])
    (by norm_num)

/-! ### Concrete load scenarios (C2, C3) -/

/-- The token lines of a text file whose only line is `f 1 2`. -/
def fileF12 : List ObjLine := [[['f'], ['1'], ['2']]]

/-- A viewer holding a nonempty mesh before a load is attempted. -/
def prevViewer : Viewer := ⟨[(1, 0, 0)], [], [], some (1, 0, 0, 1, 0, 0), (1, 0, 0)⟩

/-- C2 counterexample: loading the file `f 1 2` into a viewer with a
nonempty active mesh does NOT fail the parse (no exception is raised) and
does NOT leave the active mesh unchanged — the mesh is replaced. -/
theorem C2_counterexample :
    (load_obj (fun _ => 0) prevViewer fileF12).2 = false ∧
    (load_obj (fun _ => 0) prevViewer fileF12).1 ≠ prevViewer := by
  constructor
  · rfl
  · intro h
    have hv : ([] : List Q3) = [((1 : ℚ), (0 : ℚ), (0 : ℚ))] :=
      congrArg Viewer.verts h
    simp at hv

/-- C2 amended: a face line with fewer than three index tokens is
silently skipped (`len(parts) >= 4` fails), so parsing the file `f 1 2`
succeeds with an empty mesh, and the load replaces the viewer's active
mesh with that empty mesh (empty vertices, faces and normals, absent
bounding box) regardless of the previous state. -/
theorem C2_amended (sqrtq : ℚ → ℚ) (st : Viewer) :
    load_obj sqrtq st fileF12 = (⟨[], [], [], none, (0, 0, 0)⟩, false) := rfl

/-- A freshly constructed viewer with no mesh. -/
def emptyViewer : Viewer := ⟨[], [], [], none, (0, 0, 0)⟩

/-- The token lines of a file with two vertices and the face `f 1 2 -4`,
whose third index resolves to `2 + (-4) + 1 - 1 = -2`, outside
`[0, vertexCount)`. -/
def fileNegOOR : List ObjLine :=
  [[['v'], ['0'], ['0'], ['0']], [['v'], ['1'], ['0'], ['0']],
   [['f'], ['1'], ['2'], ['-', '4']]]

/-- C3 counterexample: a file containing a face index that resolves
outside `[0, vertexCount)` is NOT rejected — the load completes without
raising and installs the face `(0, 1, -2)` whose third index is out of
range for the 2-vertex mesh. -/
theorem C3_counterexample :
    (load_obj (fun _ => 0) emptyViewer fileNegOOR).2 = false ∧
    (load_obj (fun _ => 0) emptyViewer fileNegOOR).1.faces = [(0, 1, -2)] ∧
    ¬(0 ≤ (-2 : ℤ) ∧ (-2 : ℤ) <
        ((load_obj (fun _ => 0) emptyViewer fileNegOOR).1.verts.length : ℤ)) := by
  have h1 : parseObjTokens fileNegOOR
      = some ⟨[(0, 0, 0), (1, 0, 0)], [(0, 1, -2)]⟩ := by decide
  norm_num [load_obj, h1, compute_bounds, pyMin, pyMax, compute_vertex_normals,
    accNormals, pyGet, pySet, normalize, normDivisor, pyOr, normSq, cross, sub, add,
    mul, emptyViewer]

/-- C3 amended: the parser performs no range validation: a face index
resolving to a negative value within `[-vertexCount, -1]` is installed
silently (subsequent vertex lookups wrap, Python-style).  Loading the
2-vertex file with `f 1 2 -4` completes without error and installs the
full state below, its face holding the out-of-range index `-2`. -/
theorem C3_amended :
    load_obj (fun _ => 0) emptyViewer fileNegOOR
      = (⟨[(0, 0, 0), (1, 0, 0)], [(0, 1, -2)], [(0, 0, 0), (0, 0, 0)],
          some (0, 0, 0, 1, 0, 0), (1/2, 0, 0)⟩, false) := by
  have h1 : parseObjTokens fileNegOOR
      = some ⟨[(0, 0, 0), (1, 0, 0)], [(0, 1, -2)]⟩ := by decide
  norm_num [load_obj, h1, compute_bounds, pyMin, pyMax, compute_vertex_normals,
    accNormals, pyGet, pySet, normalize, normDivisor, pyOr, normSq, cross, sub, add,
    mul, emptyViewer, List.replicate]

/-! ### Negative index resolution (C5) -/

/-- The token lines of a file with five vertices and the face
`f -1 -2 -3`. -/
def fileNegIdx : List ObjLine :=
  [[['v'], ['0'], ['0'], ['0']], [['v'], ['0'], ['0'], ['0']],
   [['v'], ['0'], ['0'], ['0']], [['v'], ['0'], ['0'], ['0']],
   [['v'], ['0'], ['0'], ['0']], [['f'], ['-', '1'], ['-', '2'], ['-', '3']]]

/-- C5: a negative face index token `idx` read with `n` vertices so far
resolves to the 0-based index `n + idx` (the 1-based `n + idx + 1` of the
source, shifted), a positive token `v` resolves to `v - 1`, and the file
with five vertex lines followed by `f -1 -2 -3` parses to the single face
`(4, 3, 2)`. -/
theorem C5_negative_index :
    (∀ n idx : ℤ, idx < 0 → resolveIdx n idx = n + idx) ∧
    (∀ n v : ℤ, 0 < v → resolveIdx n v = v - 1) ∧
    parseObjTokens fileNegIdx
      = some ⟨[(0,0,0), (0,0,0), (0,0,0), (0,0,0), (0,0,0)], [(4, 3, 2)]⟩ := by
  refine ⟨fun n idx h => ?_, fun n v h => ?_, by decide⟩
  · unfold resolveIdx
    rw [if_pos h]
    ring
  · unfold resolveIdx
    rw [if_neg (by omega)]

/-- Closed instance of C5's resolution rules at `n = 5`. -/
theorem C5_witness :
    resolveIdx 5 (-1) = 5 + (-1) ∧ resolveIdx 5 2 = 2 - 1 :=
  ⟨C5_negative_index.1 5 (-1) (by norm_num), C5_negative_index.2.1 5 2 (by norm_num)⟩

/-! ### Generator vertex counts and index validity (C4, C7, C8) -/

theorem sphereVerts_length (piq : ℚ) (cosq sinq : ℚ → ℚ) (r : ℚ) (seg rings : ℕ) :
    (sphereVerts piq cosq sinq r seg rings).length = (rings + 1) * seg :=
  catRange_length_const _ _ _ (fun i _ => by rw [List.length_map, List.length_range])

theorem torusVerts_length (piq : ℚ) (cosq sinq : ℚ → ℚ) (R r : ℚ) (seg ring : ℕ) :
    (torus piq cosq sinq R r seg ring).1.length = ring * seg :=
  catRange_length_const _ _ _ (fun i _ => by rw [List.length_map, List.length_range])

theorem coneVerts_length (piq : ℚ) (cosq sinq : ℚ → ℚ) (radius height : ℚ) (seg : ℕ) :
    (cone piq cosq sinq radius height seg).1.length = seg + 2 := by
  unfold cone
  rw [List.length_append, List.length_map, List.length_range]
  rfl

theorem cylinderVerts_length (piq : ℚ) (cosq sinq : ℚ → ℚ) (radius height : ℚ)
    (seg : ℕ) : (cylinder piq cosq sinq radius height seg).1.length = seg * 2 + 2 := by
  unfold cylinder
  rw [List.length_append]
  have h2 := catRange_length_const seg
    (fun (j : ℕ) =>
      [((radius * cosq (2 * piq * j / seg), height / 2,
          radius * sinq (2 * piq * j / seg)) : Q3),
       (radius * cosq (2 * piq * j / seg), -height / 2,
          radius * sinq (2 * piq * j / seg))]) 2 (fun i _ => rfl)
  rw [h2]
  rfl

/-- Index-validity check: every face triple's indices below `n`. -/
def facesBelow (n : ℕ) (fs : List TriN) : Bool :=
  fs.all fun t => decide (t.1 < n) && decide (t.2.1 < n) && decide (t.2.2 < n)

set_option maxRecDepth 40000 in
/-- C4: for every shape name (in particular the five shape families
`_make_shape` dispatches to, each with its default parameters), every
index in every produced face triple is strictly below the number of
produced vertices. -/
theorem C4_index_validity (piq : ℚ) (cosq sinq : ℚ → ℚ) (name : String) :
    facesBelow (make_shape piq cosq sinq name).1.length
      (make_shape piq cosq sinq name).2 = true := by
  unfold make_shape
  by_cases h1 : name = "sphere"
  · rw [if_pos h1]
    have hl : (uv_sphere piq cosq sinq 0.6 32 16).1.length = 544 :=
      sphereVerts_length piq cosq sinq 0.6 32 16
    have hf : (uv_sphere piq cosq sinq 0.6 32 16).2 = sphereFaces 32 16 := rfl
    rw [hl, hf]
    decide
  rw [if_neg h1]
  by_cases h2 : name = "torus"
  · rw [if_pos h2]
    have hl : (torus piq cosq sinq 0.65 0.22 40 24).1.length = 960 :=
      torusVerts_length piq cosq sinq 0.65 0.22 40 24
    have hf : (torus piq cosq sinq 0.65 0.22 40 24).2 = torusFaces 40 24 := rfl
    rw [hl, hf]
    decide
  rw [if_neg h2]
  by_cases h3 : name = "cone"
  · rw [if_pos h3]
    have hl : (cone piq cosq sinq 0.6 1.0 40).1.length = 42 :=
      coneVerts_length piq cosq sinq 0.6 1.0 40
    have hf : (cone piq cosq sinq 0.6 1.0 40).2 = coneFaces 40 := rfl
    rw [hl, hf]
    decide
  rw [if_neg h3]
  by_cases h4 : name = "cylinder"
  · rw [if_pos h4]
    have hl : (cylinder piq cosq sinq 0.5 1.0 40).1.length = 82 :=
      cylinderVerts_length piq cosq sinq 0.5 1.0 40
    have hf : (cylinder piq cosq sinq 0.5 1.0 40).2 = cylFaces 40 := rfl
    rw [hl, hf]
    decide
  rw [if_neg h4]
  have hl : (cube 1.0).1.length = 8 := rfl
  have hf : (cube 1.0).2 = cubeFaces := rfl
  rw [hl, hf]
  decide

/-- C7: the 0.6-radius, 32-segment, 16-ring UV sphere has
`17 * 32 = 544` vertices; its face list is the concatenation of the 16
per-row face lists, of which the two polar rows (`i = 0` and
`i = rings - 1 = 15`) contribute 32 triangles each and each of the 14
interior rows contributes 64. -/
theorem C7_sphere_counts (piq : ℚ) (cosq sinq : ℚ → ℚ) :
    (uv_sphere piq cosq sinq 0.6 32 16).1.length = 544 ∧
    (uv_sphere piq cosq sinq 0.6 32 16).2
      = catRange 16 (fun i => sphereRowFaces 32 16 i) ∧
    (sphereRowFaces 32 16 0).length = 32 ∧
    (sphereRowFaces 32 16 15).length = 32 ∧
    ∀ i, 1 ≤ i → i ≤ 14 → (sphereRowFaces 32 16 i).length = 64 := by
  refine ⟨sphereVerts_length piq cosq sinq 0.6 32 16, rfl, by decide, by decide, ?_⟩
  intro i h1 h2
  interval_cases i <;> decide

/-- Closed instance of C7 (interior row taken at `i = 7`). -/
theorem C7_witness :
    (uv_sphere 0 (fun _ => 0) (fun _ => 0) 0.6 32 16).1.length = 544 ∧
    (sphereRowFaces 32 16 0).length = 32 ∧
    (sphereRowFaces 32 16 15).length = 32 ∧
    (sphereRowFaces 32 16 7).length = 64 := by
  have h := C7_sphere_counts 0 (fun _ => 0) (fun _ => 0)
  exact ⟨h.1, h.2.2.1, h.2.2.2.1, h.2.2.2.2 7 (by norm_num) (by norm_num)⟩

/-! ### Cube scenario and winding (C8) -/

/-- Vertex lookup for winding checks (`getD` with a zero default; every
index used is in range). -/
def vAt (vs : List Q3) (i : ℕ) : Q3 := vs.getD i (0, 0, 0)

/-- Dot product. -/
def dot3 (a b : Q3) : ℚ := a.1 * b.1 + a.2.1 * b.2.1 + a.2.2 * b.2.2

/-- The cross-product normal `cross(b - a, c - a)` of a face. -/
def faceNormal (vs : List Q3) (t : TriN) : Q3 :=
  cross (sub (vAt vs t.2.1) (vAt vs t.1)) (sub (vAt vs t.2.2) (vAt vs t.1))

/-- The centroid of a face. -/
def faceCentroid (vs : List Q3) (t : TriN) : Q3 :=
  mul (add (add (vAt vs t.1) (vAt vs t.2.1)) (vAt vs t.2.2)) (1/3)

/-- C8 counterexample: the winding of `_cube` is not consistently
outward: the first face `(0,1,2)` is in the face list, yet its
cross-product normal points TOWARD the cube's center (the origin) — the
dot product with the centroid-minus-center direction is negative. -/
theorem C8_counterexample :
    (0, 1, 2) ∈ (cube 1.0).2 ∧
    dot3 (faceNormal (cube 1.0).1 (0, 1, 2))
      (sub (faceCentroid (cube 1.0).1 (0, 1, 2)) (0, 0, 0)) < 0 := by
  constructor
  · decide
  · norm_num [cube, vAt, dot3, faceNormal, faceCentroid, cross, sub, add, mul]

/-- C8 amended: `generate(box, size 1.0)` produces exactly 8 vertices,
each coordinate `±0.5`, and exactly 12 triangles (two per cube face),
but the winding is NOT consistently outward: face `(0,1,2)` has its
cross-product normal pointing toward the center while face `(4,5,6)`
points away. -/
theorem C8_amended :
    (cube 1.0).1.length = 8 ∧
    ((cube 1.0).1.all fun v =>
      (decide (v.1 = 0.5) || decide (v.1 = -0.5)) &&
      (decide (v.2.1 = 0.5) || decide (v.2.1 = -0.5)) &&
      (decide (v.2.2 = 0.5) || decide (v.2.2 = -0.5))) = true ∧
    (cube 1.0).2.length = 12 ∧
    (0, 1, 2) ∈ (cube 1.0).2 ∧ (4, 5, 6) ∈ (cube 1.0).2 ∧
    dot3 (faceNormal (cube 1.0).1 (0, 1, 2))
      (sub (faceCentroid (cube 1.0).1 (0, 1, 2)) (0, 0, 0)) < 0 ∧
    0 < dot3 (faceNormal (cube 1.0).1 (4, 5, 6))
      (sub (faceCentroid (cube 1.0).1 (4, 5, 6)) (0, 0, 0)) := by
  refine ⟨rfl, ?_, rfl, by decide, by decide, ?_, ?_⟩
  · norm_num [cube]
  · norm_num [cube, vAt, dot3, faceNormal, faceCentroid, cross, sub, add, mul]
  · norm_num [cube, vAt, dot3, faceNormal, faceCentroid, cross, sub, add, mul]

/-! ### Frame-to-fit (C6) -/

/-- The concrete framing used for the C6 counterexample: the unit
bounding box, whose clamped extent is `1`. -/
def frameUnit : Cam :=
  frame_to_fit 0 (fun _ => 0) (fun _ => 0) (fun _ => 0)
    (some (0, 0, 0, 1, 1, 1)) (0.5, 0.5, 0.5) ⟨(0, 0.75, 3.5), 35, -20, 3.5⟩

/-- C6 counterexample: framing the unit box sets `dist = 2.2` (the code
computes `2.2 * extent` directly), and NO padding constant `k` in the
claimed range `[1.1, 2.2]` satisfies `dist = k * extent / sin(fov/2)`
with `extent = 1` and `fov = 45` degrees: that would force
`k = 2.2 * sin(22.5 deg) < 1.1`. -/
theorem C6_counterexample :
    frameUnit.dist = 2.2 ∧
    ¬ ∃ k : ℝ, 1.1 ≤ k ∧ k ≤ 2.2 ∧
      ((frameUnit.dist : ℚ) : ℝ)
        = k * 1 / Real.sin (((fov_deg : ℚ) : ℝ) / 2 * (Real.pi / 180)) := by
  have hdist : frameUnit.dist = 2.2 := by
    norm_num [frameUnit, frame_to_fit]
  refine ⟨hdist, ?_⟩
  rintro ⟨k, hk1, hk2, he⟩
  rw [hdist] at he
  have hfov : ((fov_deg : ℚ) : ℝ) = 45 := by norm_num [fov_deg]
  rw [hfov] at he
  have hang : (45 : ℝ) / 2 * (Real.pi / 180) = Real.pi / 8 := by ring
  rw [hang] at he
  have hspos : 0 < Real.sin (Real.pi / 8) :=
    Real.sin_pos_of_pos_of_lt_pi (by positivity)
      (by nlinarith [Real.pi_pos])
  have hlt : Real.sin (Real.pi / 8) < Real.pi / 8 := Real.sin_lt (by positivity)
  have hpi : Real.pi < 3.15 := Real.pi_lt_d2
  have h22 : ((2.2 : ℚ) : ℝ) = 2.2 := by norm_num
  rw [h22, mul_one, eq_div_iff (ne_of_gt hspos)] at he
  nlinarith

/-- C6 amended: `_frame_to_fit` on a present bounding box sets
`dist = 2.2 * extent` where `extent` is the largest box dimension clamped
to `0.25` (equivalently `k * extent / sin(fov/2)` for
`k = 2.2 * sin(22.5 deg) ≈ 0.84`, BELOW the claimed `[1.1, 2.2]` range);
it resets yaw/pitch to the fixed `35 / -20` and puts the camera at
`center - forward * dist`. -/
theorem C6_amended (piq : ℚ) (cosr sinr sqrtq : ℚ → ℚ)
    (minx miny minz maxx maxy maxz : ℚ) (center : Q3) (cam : Cam) :
    (frame_to_fit piq cosr sinr sqrtq (some (minx, miny, minz, maxx, maxy, maxz))
        center cam).dist
      = 2.2 * max (max (max (maxx - minx) (maxy - miny)) (maxz - minz)) 0.25 ∧
    (frame_to_fit piq cosr sinr sqrtq (some (minx, miny, minz, maxx, maxy, maxz))
        center cam).yaw = 35 ∧
    (frame_to_fit piq cosr sinr sqrtq (some (minx, miny, minz, maxx, maxy, maxz))
        center cam).pitch = -20 ∧
    (frame_to_fit piq cosr sinr sqrtq (some (minx, miny, minz, maxx, maxy, maxz))
        center cam).pos
      = sub center (mul (basis piq cosr sinr sqrtq 35 (-20)).1
          (frame_to_fit piq cosr sinr sqrtq (some (minx, miny, minz, maxx, maxy, maxz))
            center cam).dist) ∧
    (((frame_to_fit piq cosr sinr sqrtq (some (minx, miny, minz, maxx, maxy, maxz))
        center cam).dist : ℚ) : ℝ)
      = (2.2 * Real.sin (((fov_deg : ℚ) : ℝ) / 2 * (Real.pi / 180)))
          * ((max (max (max (maxx - minx) (maxy - miny)) (maxz - minz)) 0.25 : ℚ) : ℝ)
          / Real.sin (((fov_deg : ℚ) : ℝ) / 2 * (Real.pi / 180)) ∧
    2.2 * Real.sin (((fov_deg : ℚ) : ℝ) / 2 * (Real.pi / 180)) < 1.1 := by
  have hfov : ((fov_deg : ℚ) : ℝ) = 45 := by norm_num [fov_deg]
  have hang : (45 : ℝ) / 2 * (Real.pi / 180) = Real.pi / 8 := by ring
  have hspos : 0 < Real.sin (Real.pi / 8) :=
    Real.sin_pos_of_pos_of_lt_pi (by positivity) (by nlinarith [Real.pi_pos])
  have hlt : Real.sin (Real.pi / 8) < Real.pi / 8 := Real.sin_lt (by positivity)
  have hpi : Real.pi < 3.15 := Real.pi_lt_d2
  refine ⟨rfl, rfl, rfl, rfl, ?_, ?_⟩
  · rw [hfov, hang]
    have hd : (frame_to_fit piq cosr sinr sqrtq
        (some (minx, miny, minz, maxx, maxy, maxz)) center cam).dist
        = 2.2 * max (max (max (maxx - minx) (maxy - miny)) (maxz - minz)) 0.25 := rfl
    rw [hd]
    set s := Real.sin (Real.pi / 8) with hsdef
    have hs0 : s ≠ 0 := ne_of_gt hspos
    push_cast
    field_simp
    ring
  · rw [hfov, hang]
    nlinarith

/-! ### Tick clamp and bounded per-frame movement (C10) -/

/-- C10: the time step of `_tick` is clamped into `[0, 0.05]` regardless
of the elapsed wall-clock time, and one `_update_movement` call driven by
that step moves the camera by at most `speed * 0.05` (squared norms;
`speed` is the effective speed including the Shift factor), assuming
`math.sqrt` behaves as a square root at the one value where
`_normalize` consults it. -/
theorem C10_tick_clamp (piq : ℚ) (cosr sinr sqrtq : ℚ → ℚ) (ks : KeyState)
    (lastT now yaw pitch : ℚ) (pos : Q3)
    (hs : sqrtq (normSq (moveVec piq cosr sinr sqrtq yaw pitch ks)) *
          sqrtq (normSq (moveVec piq cosr sinr sqrtq yaw pitch ks))
        = normSq (moveVec piq cosr sinr sqrtq yaw pitch ks)) :
    0 ≤ tick_dt lastT now ∧ tick_dt lastT now ≤ 0.05 ∧
    normSq (sub (update_movement piq cosr sinr sqrtq ks (tick_dt lastT now) yaw pitch pos)
        pos)
      ≤ (move_speed * (if ks.shift then 2.25 else 1))^2 * 0.05^2 := by
  set dt := tick_dt lastT now with hdt
  have h0 : 0 ≤ dt := le_max_left 0 _
  have h1 : dt ≤ 0.05 := by
    rw [hdt]
    unfold tick_dt
    exact max_le (by norm_num) (min_le_left _ _)
  refine ⟨h0, h1, ?_⟩
  set spd := move_speed * (if ks.shift then 2.25 else 1) with hspd
  have hrhs : (0 : ℚ) ≤ spd^2 * 0.05^2 := by positivity
  unfold update_movement
  by_cases hk : keysHeld ks = false
  · rw [if_pos hk, sub_self3]
    have : normSq ((0 : ℚ), (0 : ℚ), (0 : ℚ)) = 0 := by unfold normSq; ring
    rw [this]
    exact hrhs
  · rw [if_neg hk]
    simp only
    set m := moveVec piq cosr sinr sqrtq yaw pitch ks with hm
    by_cases hz : m ≠ ((0 : ℚ), (0 : ℚ), (0 : ℚ))
    · rw [if_pos hz, sub_add_cancel3, normSq_mul]
      have hu : normSq (normalize sqrtq m) = 1 :=
        normSq_normalize_eq_one sqrtq m hs
          (fun h => hz ((normSq_eq_zero_iff m).mp h))
      rw [hu, one_mul]
      have hd2 : spd * dt * (spd * dt) = spd^2 * dt^2 := by ring
      rw [hd2]
      have hdt2 : dt^2 ≤ 0.05^2 := by nlinarith
      nlinarith [sq_nonneg spd]
    · rw [if_neg hz, sub_self3]
      have : normSq ((0 : ℚ), (0 : ℚ), (0 : ℚ)) = 0 := by unfold normSq; ring
      rw [this]
      exact hrhs

/-- Closed instance of C10: holding W with yaw/pitch zero, under cosine
`1`, sine `0` and a square root oracle exact at `1`, after a 10-second
stall the clamped step is `0.05` and the squared displacement equals the
bound. -/
theorem C10_witness :
    0 ≤ tick_dt 0 10 ∧ tick_dt 0 10 ≤ 0.05 ∧
    normSq (sub (update_movement 0 (fun _ => 1) (fun _ => 0)
        (fun t => if t = 1 then 1 else 0)
        ⟨true, false, false, false, false, false, false, false⟩
        (tick_dt 0 10) 0 0 (0, 0, 0)) (0, 0, 0))
      ≤ (move_speed * (if (⟨true, false, false, false, false, false, false,
          false⟩ : KeyState).shift then 2.25 else 1))^2 * 0.05^2 :=
  C10_tick_clamp 0 (fun _ => 1) (fun _ => 0) (fun t => if t = 1 then 1 else 0)
    ⟨true, false, false, false, false, false, false, false⟩ 0 10 0 0 (0, 0, 0)
    (by norm_num [moveVec, basis, normalize, normDivisor, pyOr, normSq, cross, sub, add,
      radiansq])

end Sculptr
